import Mathlib

/-!
Verification of the scalar-multiplication schedules of the edwards25519
package (file scalarmult.go).

The group law, coordinate representations, digit encoders and lookup
tables live outside the verified source unit; the spec treats them as
black-box collaborators, so they are modelled here from the spec: every
coordinate representation (P3, P2, P1xP1, projCached, affineCached)
denotes an element of an abstract additive commutative group G, every
conversion is the identity on the denoted element, Add/Sub/Double are
the group operations, and table selection by a signed digit d on a table
built from a point P denotes d • P.

The five operations themselves (ScalarBaseMult, ScalarMult,
MultiScalarMult, VarTimeDoubleScalarBaseMult, VarTimeMultiScalarMult)
are translated statement by statement from scalarmult.go.
-/

namespace Edwards25519

/-- Modelled from the spec: the two fatal error kinds of the package
(length mismatch between the scalar and point slices, and a
caller-supplied point in the uninitialized sentinel state).  The Go code
panics; the model returns this error. -/
inductive MultError where
  | lengthMismatch
  | uninitializedPoint
deriving DecidableEq

/-- Modelled from the spec: the prime order l of the group, used only as
the validity bound for scalars (a valid scalar is strictly less than l). -/
def l : ℕ := 2 ^ 252 + 27742317777372353535851937790883648493

section Group

variable {G : Type} [AddCommGroup G]

/-- Modelled from the spec: a caller-visible point.  It denotes a group
element, plus the distinguished uninitialized sentinel state that the
core must detect and reject (Point in the Go code; the zero value is the
sentinel). -/
structure Point (G : Type) where
  val : G
  initialized : Bool

/-- Modelled from the spec: the identity element (NewIdentityPoint in
the Go code). -/
def NewIdentityPoint : G := 0

/-- Modelled from the spec: the canonical generator B, packaged as a
valid caller-visible point. -/
def Generator (B : G) : Point G := ⟨B, true⟩

/-- Modelled from the spec: checkInitialized(points...) succeeds exactly
when no supplied point is the uninitialized sentinel.  The Go function
panics on the first uninitialized point; callers below branch on this
boolean and fail with MultError.uninitializedPoint. -/
def checkInitialized (points : List (Point G)) : Bool :=
  points.all (·.initialized)

/-- Modelled from the spec: constant-time table selection
(projLookupTable.SelectInto / affineLookupTable.SelectInto).  A table
built from a point P stores its 1x..8x multiples; selection by a signed
digit d in [-8, 8] visits every entry and returns d • P (the entry at
the absolute value of d, negated to match the sign of d; digit 0 selects
the identity). -/
def ctSelect (P : G) (d : ℤ) : G := d • P

/-- Modelled from the spec: variable-time NAF table selection
(nafLookupTable5.SelectInto / nafLookupTable8.SelectInto).  A table
built from a point P stores its odd multiples; selection by a positive
odd digit d indexes directly and returns d • P. -/
def nafSelect (P : G) (d : ℤ) : G := d • P

/-- Modelled from the spec: basepointTable[j] is the constant-time
sub-table of multiples of the fixed generator scaled by 16^(2j); this
definition gives the point that sub-table is built from. -/
def basepointTable (B : G) (j : ℕ) : G := (16 : ℤ) ^ (2 * j) • B

end Group

/-- Modelled from the spec: the plain base-16 digits of a scalar, least
significant first, each in [0, 15]; n digits of x. -/
def base16 : ℕ → ℕ → List ℤ
  | 0, _ => []
  | n + 1, x => ((x % 16 : ℕ) : ℤ) :: base16 n (x / 16)

/-- Modelled from the spec: the recentering carry chain of
signedRadix16.  From least significant upward, a digit exceeding 8 has
16 subtracted from it and 1 carried into the next digit; the final digit
only receives the carry (the precondition scalar < l guarantees it stays
at most 8). -/
def recenter : ℤ → List ℤ → List ℤ
  | _, [] => []
  | c, [d] => [d + c]
  | c, d :: d2 :: ds =>
      if d + c > 8 then (d + c - 16) :: recenter 1 (d2 :: ds)
      else (d + c) :: recenter 0 (d2 :: ds)

/-- Modelled from the spec: Scalar.signedRadix16 produces 64 signed
digits d_0..d_63, each in [-8, 8], with sum of d_i * 16^i equal to the
scalar: the base-16 digits followed by the recentering carry chain. -/
def signedRadix16 (x : ℕ) : List ℤ := recenter 0 (base16 64 x)

/-- Modelled from the spec: Scalar.nonAdjacentForm(w).  Bit positions
are scanned low to high; at an odd value the low w bits are extracted as
a centered residue (2^w subtracted when at least 2^(w-1)), recorded, and
the borrow applied to the remaining high bits; at an even value a zero
digit is recorded.  The fuel argument is the number of digit positions
produced (256 in the Go code). -/
def nonAdjacentForm (w : ℕ) : ℕ → ℕ → List ℤ
  | 0, _ => []
  | fuel + 1, x =>
      if x % 2 = 1 then
        let r := x % 2 ^ w
        if 2 ^ (w - 1) ≤ r then
          ((r : ℤ) - 2 ^ w) :: nonAdjacentForm w fuel ((x + (2 ^ w - r)) / 2)
        else
          (r : ℤ) :: nonAdjacentForm w fuel ((x - r) / 2)
      else
        0 :: nonAdjacentForm w fuel (x / 2)

/-- Value left over after the digit positions of nonAdjacentForm are
exhausted (zero for every valid scalar; used to prove the digit sum
identity). -/
def nafRemainder (w : ℕ) : ℕ → ℕ → ℕ
  | 0, x => x
  | fuel + 1, x =>
      if x % 2 = 1 then
        let r := x % 2 ^ w
        if 2 ^ (w - 1) ≤ r then nafRemainder w fuel ((x + (2 ^ w - r)) / 2)
        else nafRemainder w fuel ((x - r) / 2)
      else nafRemainder w fuel (x / 2)

/-- Weighted digit sum: evalBase c [d0, d1, ...] is d0 + c*d1 + c^2*d2 + ... -/
def evalBase (c : ℤ) : List ℤ → ℤ
  | [] => 0
  | d :: ds => d + c * evalBase c ds

/-- Translated from scalarmult.go lines 184-189: the search for the
first nonzero NAF coefficient, scanning j from 255 downward and stopping
at the first position where either NAF digit is nonzero (-1 when both
NAFs are all zero).  In the source this is the value of the loop
variable j at the break. -/
def nafSearch (aNaf bNaf : List ℤ) : ℕ → ℤ
  | 0 => if aNaf.getD 0 0 ≠ 0 ∨ bNaf.getD 0 0 ≠ 0 then 0 else -1
  | j + 1 =>
      if aNaf.getD (j + 1) 0 ≠ 0 ∨ bNaf.getD (j + 1) 0 ≠ 0 then ((j : ℤ) + 1)
      else nafSearch aNaf bNaf j

/-- Translated from scalarmult.go lines 184-200: the position at which
the doubling loop of VarTimeDoubleScalarBaseMult starts.  The source
sets i := 255 and then runs the search loop over a separate variable j;
j is never assigned to i, so i is still 255 when the doubling loop
starts, whatever the NAF digits are. -/
def vtdsbmLoopStart (aNaf bNaf : List ℤ) : ℕ :=
  let _j := nafSearch aNaf bNaf 255
  255

section Ops

variable {G : Type} [AddCommGroup G]

/-- Translated from scalarmult.go lines 11-56 (Point.ScalarBaseMult).
The receiver value v0 is overwritten with the identity before any
accumulation.  Odd-indexed radix-16 digits are accumulated first, each
through the constant-time selector on basepointTable[i/2]; the total is
multiplied by 16 via four doublings; then the even-indexed digits are
accumulated the same way. -/
def ScalarBaseMult (v0 B : G) (x : ℕ) : G :=
  let digits := signedRadix16 x
  let v := v0
  let v := NewIdentityPoint (G := G)
  let v := (List.range 32).foldl
    (fun v j => v + ctSelect (basepointTable B j) (digits.getD (2 * j + 1) 0)) v
  let v := (2 : ℤ) • ((2 : ℤ) • ((2 : ℤ) • ((2 : ℤ) • v)))
  let v := (List.range 32).foldl
    (fun v j => v + ctSelect (basepointTable B j) (digits.getD (2 * j) 0)) v
  v

/-- Translated from scalarmult.go lines 61-98 (Point.ScalarMult).  The
point is checked for the uninitialized sentinel first; a constant-time
table is built from it; the radix-16 digits are consumed most
significant first, with the first iteration unwrapped: v is set to the
identity plus the digit-63 multiple, and each following position does
four doublings then adds the selected multiple. -/
def ScalarMult (v0 : G) (x : ℕ) (q : Point G) : Except MultError G :=
  if checkInitialized [q] then
    let table := q.val
    let digits := signedRadix16 x
    let multiple := ctSelect table (digits.getD 63 0)
    let v := v0
    let v := NewIdentityPoint (G := G)
    let tmp1 := v + multiple
    let tmp1 := ((List.range 63).reverse).foldl
      (fun t i =>
        let t := (2 : ℤ) • ((2 : ℤ) • ((2 : ℤ) • ((2 : ℤ) • t)))
        t + ctSelect table (digits.getD i 0)) tmp1
    .ok tmp1
  else .error .uninitializedPoint

/-- Translated from scalarmult.go lines 104-153 (Point.MultiScalarMult).
Length mismatch is checked first, then the uninitialized sentinel.  One
table is built per point and one radix-16 digit array per scalar.  The
first (digit 63) iteration is unwrapped and adds each selected multiple
to the receiver value v0 as it stands; each following position does four
shared doublings then adds every selected multiple.  Note that the
source never sets v to the identity in this function. -/
def MultiScalarMult (v0 : G) (scalars : List ℕ) (points : List (Point G)) :
    Except MultError G :=
  if scalars.length = points.length then
    if checkInitialized points then
      let tables := points.map (·.val)
      let digits := scalars.map signedRadix16
      let pairs := tables.zip digits
      let v := pairs.foldl (fun v td => v + ctSelect td.1 (td.2.getD 63 0)) v0
      let v := ((List.range 63).reverse).foldl
        (fun v i =>
          let v := (2 : ℤ) • ((2 : ℤ) • ((2 : ℤ) • ((2 : ℤ) • v)))
          pairs.foldl (fun v td => v + ctSelect td.1 (td.2.getD i 0)) v) v
      .ok v
    else .error .uninitializedPoint
  else .error .lengthMismatch

/-- Translated from scalarmult.go lines 159-229
(Point.VarTimeDoubleScalarBaseMult).  The dynamic point is checked for
the uninitialized sentinel first; a width-5 NAF is taken for a and a
width-8 NAF for b; the search loop computes nafSearch but its result is
never assigned to the loop start (see vtdsbmLoopStart); the accumulator
starts at zero and, from the start position down to 0, is doubled and
then updated only at nonzero NAF digits, adding or subtracting the
selected multiple according to the digit sign. -/
def VarTimeDoubleScalarBaseMult (v0 B : G) (a : ℕ) (A : Point G) (b : ℕ) :
    Except MultError G :=
  if checkInitialized [A] then
    let aTable := A.val
    let aNaf := nonAdjacentForm 5 256 a
    let bNaf := nonAdjacentForm 8 256 b
    let i := vtdsbmLoopStart aNaf bNaf
    let tmp2 := (0 : G)
    let tmp2 := ((List.range (i + 1)).reverse).foldl
      (fun t i =>
        let t1 := (2 : ℤ) • t
        let t2 :=
          if 0 < aNaf.getD i 0 then t1 + nafSelect aTable (aNaf.getD i 0)
          else if aNaf.getD i 0 < 0 then t1 - nafSelect aTable (-(aNaf.getD i 0))
          else t1
        if 0 < bNaf.getD i 0 then t2 + nafSelect B (bNaf.getD i 0)
        else if bNaf.getD i 0 < 0 then t2 - nafSelect B (-(bNaf.getD i 0))
        else t2) tmp2
    .ok tmp2
  else .error .uninitializedPoint

/-- Translated from scalarmult.go lines 234-286
(Point.VarTimeMultiScalarMult).  Length mismatch is checked first, then
the uninitialized sentinel.  One width-5 NAF table is built per point
and one width-5 NAF per scalar.  No leading-zero search is attempted:
the accumulator starts at zero and the loop always runs from position
255 down to 0, doubling once per position and updating only at nonzero
NAF digits. -/
def VarTimeMultiScalarMult (v0 : G) (scalars : List ℕ) (points : List (Point G)) :
    Except MultError G :=
  if scalars.length = points.length then
    if checkInitialized points then
      let tables := points.map (·.val)
      let nafs := scalars.map (nonAdjacentForm 5 256)
      let pairs := tables.zip nafs
      let tmp2 := (0 : G)
      let tmp2 := ((List.range 256).reverse).foldl
        (fun t i =>
          let t := (2 : ℤ) • t
          pairs.foldl
            (fun t tn =>
              if 0 < tn.2.getD i 0 then t + nafSelect tn.1 (tn.2.getD i 0)
              else if tn.2.getD i 0 < 0 then t - nafSelect tn.1 (-(tn.2.getD i 0))
              else t) t) tmp2
      .ok tmp2
    else .error .uninitializedPoint
  else .error .lengthMismatch

end Ops

/-- Tags for the group-law operations a schedule performs.  The sequence
of these operations (the trace) is the observable cost and memory-access
schedule of an operation: the constant-time contract of the spec is that
the trace does not depend on the scalar values. -/
inductive GroupOp where
  | tableBuild
  | digitDecompose
  | select
  | add
  | double
deriving DecidableEq

/-- Modelled from the spec: the constant-time selector visits every
table entry and combines with an arithmetic mask, so the work it
performs is the same whatever the digit. -/
def ctSelectTrace (_d : ℤ) : List GroupOp := [GroupOp.select]

section Traces

/-- Trace of ScalarBaseMult, mirroring its statement order: digit
decomposition, the odd-index selection/addition loop, four doublings,
then the even-index selection/addition loop. -/
def ScalarBaseMultTrace (x : ℕ) : List GroupOp :=
  let digits := signedRadix16 x
  let tr : List GroupOp := [GroupOp.digitDecompose]
  let tr := (List.range 32).foldl
    (fun tr j => tr ++ ctSelectTrace (digits.getD (2 * j + 1) 0) ++ [GroupOp.add]) tr
  let tr := tr ++ [GroupOp.double, GroupOp.double, GroupOp.double, GroupOp.double]
  let tr := (List.range 32).foldl
    (fun tr j => tr ++ ctSelectTrace (digits.getD (2 * j) 0) ++ [GroupOp.add]) tr
  tr

/-- Trace of ScalarMult: table construction, digit decomposition, the
unwrapped digit-63 selection/addition, then 63 iterations of four
doublings, a selection and an addition. -/
def ScalarMultTrace (x : ℕ) : List GroupOp :=
  let digits := signedRadix16 x
  let tr : List GroupOp := [GroupOp.tableBuild, GroupOp.digitDecompose]
  let tr := tr ++ ctSelectTrace (digits.getD 63 0) ++ [GroupOp.add]
  let tr := ((List.range 63).reverse).foldl
    (fun tr i =>
      (tr ++ [GroupOp.double, GroupOp.double, GroupOp.double, GroupOp.double])
        ++ ctSelectTrace (digits.getD i 0) ++ [GroupOp.add]) tr
  tr

/-- Trace of MultiScalarMult: one table build per point, one digit
decomposition per scalar, the unwrapped digit-63 selection/addition per
term, then 63 iterations of four shared doublings followed by a
selection and an addition per term. -/
def MultiScalarMultTrace {G : Type} (scalars : List ℕ) (points : List (Point G)) :
    List GroupOp :=
  let tr := points.foldl (fun tr _p => tr ++ [GroupOp.tableBuild]) ([] : List GroupOp)
  let tr := scalars.foldl (fun tr _s => tr ++ [GroupOp.digitDecompose]) tr
  let digits := scalars.map signedRadix16
  let pairs := points.zip digits
  let tr := pairs.foldl
    (fun tr td => tr ++ ctSelectTrace (td.2.getD 63 0) ++ [GroupOp.add]) tr
  let tr := ((List.range 63).reverse).foldl
    (fun tr i =>
      pairs.foldl
        (fun tr2 td => tr2 ++ ctSelectTrace (td.2.getD i 0) ++ [GroupOp.add])
        (tr ++ [GroupOp.double, GroupOp.double, GroupOp.double, GroupOp.double])) tr
  tr

end Traces

/-! ## Digit encoder lemmas -/

theorem base16_length : ∀ (n x : ℕ), (base16 n x).length = n := by
  intro n
  induction n with
  | zero => intro x; rfl
  | succ n ih => intro x; simp [base16, ih]

theorem recenter_length : ∀ (ds : List ℤ) (c : ℤ), (recenter c ds).length = ds.length := by
  intro ds
  induction ds with
  | nil => intro c; rfl
  | cons d ds ih =>
    intro c
    cases ds with
    | nil => rfl
    | cons d2 ds2 =>
      simp only [recenter]
      split <;> simp [ih]

theorem signedRadix16_length (x : ℕ) : (signedRadix16 x).length = 64 := by
  unfold signedRadix16
  rw [recenter_length, base16_length]

theorem evalBase_base16 : ∀ (n x : ℕ), evalBase 16 (base16 n x) = ((x % 16 ^ n : ℕ) : ℤ) := by
  intro n
  induction n with
  | zero => intro x; simp [base16, evalBase]
  | succ n ih =>
    intro x
    have hm : x % 16 ^ (n + 1) = x % 16 + 16 * (x / 16 % 16 ^ n) := by
      rw [pow_succ, mul_comm (16 ^ n) 16]
      exact Nat.mod_mul
    simp only [base16, evalBase, ih, hm]
    push_cast
    ring

theorem evalBase_recenter :
    ∀ (ds : List ℤ) (c : ℤ), ds ≠ [] →
      evalBase 16 (recenter c ds) = c + evalBase 16 ds := by
  intro ds
  induction ds with
  | nil => intro c h; exact absurd rfl h
  | cons d ds ih =>
    intro c _
    cases ds with
    | nil => simp [recenter, evalBase]; ring
    | cons d2 ds2 =>
      simp only [recenter]
      split
      · simp only [evalBase, ih 1 (by simp)]
        ring
      · simp only [evalBase, ih 0 (by simp)]
        ring

theorem evalBase_signedRadix16 {x : ℕ} (h : x < 16 ^ 64) :
    evalBase 16 (signedRadix16 x) = (x : ℤ) := by
  unfold signedRadix16
  have hne : base16 64 x ≠ [] := by
    intro hcon
    have := base16_length 64 x
    rw [hcon] at this
    simp at this
  rw [evalBase_recenter _ 0 hne, evalBase_base16, Nat.mod_eq_of_lt h, zero_add]

theorem l_lt_16_pow : l < 16 ^ 64 := by norm_num [l]

theorem l_le_two_pow : 2 * l ≤ 2 ^ 256 := by norm_num [l]

/-! ## Non-adjacent form lemmas -/

theorem nonAdjacentForm_length (w : ℕ) :
    ∀ (fuel x : ℕ), (nonAdjacentForm w fuel x).length = fuel := by
  intro fuel
  induction fuel with
  | zero => intro x; rfl
  | succ n ih =>
    intro x
    simp only [nonAdjacentForm]
    split
    · split <;> simp [ih]
    · simp [ih]

theorem evalBase_naf_add_remainder (w : ℕ) (hw : 1 ≤ w) :
    ∀ (fuel x : ℕ),
      evalBase 2 (nonAdjacentForm w fuel x) + 2 ^ fuel * (nafRemainder w fuel x : ℤ) = x := by
  intro fuel
  induction fuel with
  | zero => intro x; simp [nonAdjacentForm, nafRemainder, evalBase]
  | succ n ih =>
    intro x
    have hdvd : (2 : ℕ) ∣ 2 ^ w := dvd_pow_self 2 (by omega)
    simp only [nonAdjacentForm, nafRemainder]
    set r := x % 2 ^ w with hr
    have hrlt : r < 2 ^ w := Nat.mod_lt x (by positivity)
    have hrodd : r % 2 = x % 2 := Nat.mod_mod_of_dvd x hdvd
    have hrle : r ≤ x := Nat.mod_le x (2 ^ w)
    split
    · split
      · -- odd value, centered residue at least 2^(w-1): borrow into the high bits
        rename_i hodd _
        simp only [evalBase]
        set y := (x + (2 ^ w - r)) / 2 with hy
        have h2y : 2 * y = x + (2 ^ w - r) := by
          obtain ⟨e, he⟩ := hdvd
          omega
        have hcast : (2 : ℤ) * (y : ℤ) = (x : ℤ) + 2 ^ w - (r : ℤ) := by
          zify [hrlt.le] at h2y
          linarith
        have hR : (2 : ℤ) ^ (n + 1) * ((nafRemainder w n y : ℕ) : ℤ)
            = 2 * (2 ^ n * ((nafRemainder w n y : ℕ) : ℤ)) := by ring
        linarith [ih y, hcast, hR]
      · -- odd value, small centered residue: subtract it from the low bits
        rename_i hodd _
        simp only [evalBase]
        set y := (x - r) / 2 with hy
        have h2y : 2 * y = x - r := by omega
        have hcast : (2 : ℤ) * (y : ℤ) = (x : ℤ) - (r : ℤ) := by
          zify [hrle] at h2y
          linarith
        have hR : (2 : ℤ) ^ (n + 1) * ((nafRemainder w n y : ℕ) : ℤ)
            = 2 * (2 ^ n * ((nafRemainder w n y : ℕ) : ℤ)) := by ring
        linarith [ih y, hcast, hR]
    · -- even value: zero digit, shift one bit
      rename_i heven
      simp only [evalBase]
      set y := x / 2 with hy
      have h2y : 2 * y = x := by omega
      have hcast : (2 : ℤ) * (y : ℤ) = (x : ℤ) := by exact_mod_cast h2y
      have hR : (2 : ℤ) ^ (n + 1) * ((nafRemainder w n y : ℕ) : ℤ)
          = 2 * (2 ^ n * ((nafRemainder w n y : ℕ) : ℤ)) := by ring
      linarith [ih y, hcast, hR]

theorem nafRemainder_eq_zero (w : ℕ) (hw : 2 ≤ w) :
    ∀ (fuel x : ℕ), 2 * x ≤ 2 ^ fuel → nafRemainder w fuel x = 0 := by
  intro fuel
  induction fuel with
  | zero =>
    intro x hx
    simp only [pow_zero] at hx
    have : x = 0 := by omega
    simp [nafRemainder, this]
  | succ n ih =>
    intro x hx
    have hxn : x ≤ 2 ^ n := by
      have h2 : (2 : ℕ) ^ (n + 1) = 2 * 2 ^ n := by ring
      omega
    have hdvd : (2 : ℕ) ∣ 2 ^ w := dvd_pow_self 2 (by omega)
    have hrlt : x % 2 ^ w < 2 ^ w := Nat.mod_lt x (by positivity)
    have hrodd : x % 2 ^ w % 2 = x % 2 := Nat.mod_mod_of_dvd x hdvd
    have hrle : x % 2 ^ w ≤ x := Nat.mod_le x (2 ^ w)
    have hw2 : (2 : ℕ) ^ w = 2 * 2 ^ (w - 1) := by
      have h : w - 1 + 1 = w := by omega
      calc (2 : ℕ) ^ w = 2 ^ (w - 1 + 1) := by rw [h]
        _ = 2 * 2 ^ (w - 1) := by rw [pow_succ]; ring
    have hw4 : (2 : ℕ) ^ (w - 1) = 2 * 2 ^ (w - 2) := by
      have h : w - 2 + 1 = w - 1 := by omega
      calc (2 : ℕ) ^ (w - 1) = 2 ^ (w - 2 + 1) := by rw [h]
        _ = 2 * 2 ^ (w - 2) := by rw [pow_succ]; ring
    simp only [nafRemainder]
    split
    · split
      · -- odd value, high centered residue
        rename_i hodd hhigh
        have hdm := Nat.div_add_mod x (2 ^ w)
        have hprod : 2 ^ w * (x / 2 ^ w + 1) = 2 ^ w * (x / 2 ^ w) + 2 ^ w := by ring
        have hxm : x + (2 ^ w - x % 2 ^ w) = 2 ^ w * (x / 2 ^ w + 1) := by omega
        have hy : (x + (2 ^ w - x % 2 ^ w)) / 2 = 2 ^ (w - 1) * (x / 2 ^ w + 1) := by
          rw [hxm, hw2, mul_assoc]
          exact Nat.mul_div_cancel_left _ (by norm_num)
        -- the value is odd and at least 2^(w-1)+1, so n is at least w
        have hxlow : 2 ^ (w - 1) + 1 ≤ x := by omega
        have hnw : w ≤ n := by
          have hlt : 2 ^ (w - 1) < 2 ^ n := by omega
          have := (Nat.pow_lt_pow_iff_right (by norm_num : 1 < 2)).mp hlt
          omega
        obtain ⟨k, hk⟩ : ∃ k, n = w + k := ⟨n - w, by omega⟩
        have hpn : (2 : ℕ) ^ n = 2 * (2 ^ (w - 1) * 2 ^ k) := by
          rw [hk, pow_add, hw2]
          ring
        -- the next value, divisible by 2^(w-1), fits under 2^(n-1)
        have hb2 : 2 ^ w * (x / 2 ^ w + 1) ≤ 2 * (2 ^ (w - 1) * 2 ^ k) - 1 + 2 ^ (w - 1) := by
          omega
        have h5 : 2 ^ (w - 1) * (2 * (x / 2 ^ w + 1)) <
            2 ^ (w - 1) * (2 * 2 ^ k + 1) := by
          have e1 : 2 ^ (w - 1) * (2 * (x / 2 ^ w + 1)) = 2 ^ w * (x / 2 ^ w + 1) := by
            rw [hw2]
            ring
          have e2 : 2 ^ (w - 1) * (2 * 2 ^ k + 1) = 2 * (2 ^ (w - 1) * 2 ^ k) + 2 ^ (w - 1) := by
            ring
          have hQpos : 0 < 2 ^ (w - 1) * 2 ^ k := by positivity
          omega
        have h6 : 2 * (x / 2 ^ w + 1) < 2 * 2 ^ k + 1 := Nat.lt_of_mul_lt_mul_left h5
        have h7 : x / 2 ^ w + 1 ≤ 2 ^ k := by omega
        apply ih
        rw [hy]
        calc 2 * (2 ^ (w - 1) * (x / 2 ^ w + 1)) = 2 ^ w * (x / 2 ^ w + 1) := by
              rw [hw2]; ring
          _ ≤ 2 ^ w * 2 ^ k := Nat.mul_le_mul_left (2 ^ w) h7
          _ = 2 ^ n := by rw [hk, pow_add]
      · -- odd value, low centered residue
        apply ih
        omega
    · -- even value
      apply ih
      omega

theorem evalBase_nonAdjacentForm {w fuel x : ℕ} (hw : 2 ≤ w) (h : 2 * x ≤ 2 ^ fuel) :
    evalBase 2 (nonAdjacentForm w fuel x) = (x : ℤ) := by
  have h1 := evalBase_naf_add_remainder w (by omega) fuel x
  rw [nafRemainder_eq_zero w hw fuel x h] at h1
  simpa using h1

/-! ## Generic fold lemmas over the abstract group -/

section FoldLemmas

variable {G : Type} [AddCommGroup G] {α : Type}

theorem foldl_add_eq (h : α → G) :
    ∀ (xs : List α) (a : G),
      xs.foldl (fun v x => v + h x) a = a + (xs.map h).sum := by
  intro xs
  induction xs with
  | nil => intro a; simp
  | cons x xs ih =>
    intro a
    simp only [List.foldl_cons, List.map_cons, List.sum_cons, ih]
    rw [add_assoc]

theorem sum_map_zsmul_right (f : α → ℤ) (P : G) :
    ∀ (xs : List α), (xs.map fun x => f x • P).sum = (xs.map f).sum • P := by
  intro xs
  induction xs with
  | nil => simp
  | cons x xs ih =>
    simp only [List.map_cons, List.sum_cons, ih, add_smul]

theorem sum_map_add_eq (f g : α → G) :
    ∀ (xs : List α), (xs.map fun x => f x + g x).sum = (xs.map f).sum + (xs.map g).sum := by
  intro xs
  induction xs with
  | nil => simp
  | cons x xs ih =>
    simp only [List.map_cons, List.sum_cons, ih]
    abel

theorem foldl_horner (c : ℤ) (g : ℕ → G) :
    ∀ (n : ℕ) (t : G),
      ((List.range n).reverse).foldl (fun t i => c • t + g i) t
        = c ^ n • t + ((List.range n).map fun i => c ^ i • g i).sum := by
  intro n
  induction n with
  | zero => intro t; simp
  | succ n ih =>
    intro t
    rw [List.range_succ, List.reverse_append]
    simp only [List.reverse_cons, List.reverse_nil, List.nil_append, List.singleton_append,
      List.foldl_cons, ih]
    rw [List.map_append, List.sum_append]
    simp only [List.map_cons, List.map_nil, List.sum_cons, List.sum_nil]
    rw [smul_add, smul_smul, ← pow_succ]
    abel

theorem foldl_smul_const (c : ℤ) :
    ∀ (xs : List α) (t : G),
      xs.foldl (fun t _ => c • t) t = c ^ xs.length • t := by
  intro xs
  induction xs with
  | nil => intro t; simp
  | cons x xs ih =>
    intro t
    simp only [List.foldl_cons, List.length_cons, ih]
    rw [smul_smul, ← pow_succ]

theorem sum_eq_range_getD (ds : List ℤ) (c : ℤ) :
    ((List.range ds.length).map fun i => c ^ i * ds.getD i 0).sum = evalBase c ds := by
  induction ds with
  | nil => simp [evalBase]
  | cons d ds ih =>
    rw [List.length_cons, List.range_succ_eq_map]
    simp only [List.map_cons, List.map_map, List.sum_cons, pow_zero, one_mul,
      List.getD_cons_zero]
    have hcongr : (List.range ds.length).map
          ((fun i => c ^ i * (d :: ds).getD i 0) ∘ Nat.succ)
        = (List.range ds.length).map fun i => c * (c ^ i * ds.getD i 0) := by
      apply List.map_congr_left
      intro i _
      simp only [Function.comp_apply, List.getD_cons_succ, pow_succ]
      ring
    rw [hcongr, List.sum_map_mul_left, ih, evalBase]

end FoldLemmas

/-! ## Closed forms of the five operations -/

section ClosedForms

variable {G : Type} [AddCommGroup G]

theorem ite_sign_add (t P : G) (d : ℤ) :
    (if 0 < d then t + nafSelect P d
     else if d < 0 then t - nafSelect P (-d)
     else t)
      = t + d • P := by
  unfold nafSelect
  rcases lt_trichotomy 0 d with h | h | h
  · rw [if_pos h]
  · rw [if_neg (by omega), if_neg (by omega), ← h, zero_smul, add_zero]
  · rw [if_neg (by omega), if_pos h, neg_smul, sub_neg_eq_add]

theorem ScalarMult_ok (v0 : G) (x : ℕ) (q : Point G) (hq : q.initialized = true) :
    ScalarMult v0 x q = .ok (evalBase 16 (signedRadix16 x) • q.val) := by
  have hinit : checkInitialized [q] = true := by simp [checkInitialized, hq]
  unfold ScalarMult
  rw [if_pos hinit]
  simp only [ctSelect, NewIdentityPoint]
  congr 1
  set ds := signedRadix16 x with hds
  have hstep : ∀ (t : G), ∀ i ∈ (List.range 63).reverse,
      ((2 : ℤ) • ((2 : ℤ) • ((2 : ℤ) • ((2 : ℤ) • t))) + ds.getD i 0 • q.val)
        = (16 : ℤ) • t + ds.getD i 0 • q.val := by
    intro t i _
    rw [smul_smul, smul_smul, smul_smul]
    norm_num
  rw [List.foldl_ext _ _ _ hstep, foldl_horner 16 (fun i => ds.getD i 0 • q.val) 63]
  rw [zero_add, smul_smul]
  have hmap : ((List.range 63).map fun i => (16 : ℤ) ^ i • (ds.getD i 0 • q.val))
      = (List.range 63).map fun i => ((16 : ℤ) ^ i * ds.getD i 0) • q.val := by
    apply List.map_congr_left
    intro i _
    rw [smul_smul]
  rw [hmap, sum_map_zsmul_right]
  have hlen : ds.length = 64 := by rw [hds]; exact signedRadix16_length x
  have hsplit : evalBase 16 ds
      = ((List.range 63).map fun i => (16 : ℤ) ^ i * ds.getD i 0).sum
        + (16 : ℤ) ^ 63 * ds.getD 63 0 := by
    rw [← sum_eq_range_getD ds 16, hlen]
    rw [show (64 : ℕ) = 63 + 1 from rfl, List.range_succ, List.map_append, List.sum_append]
    simp
  rw [hsplit, add_smul]
  abel

theorem evalBase_even_odd (c : ℤ) :
    ∀ (n : ℕ) (ds : List ℤ), ds.length = 2 * n →
      evalBase c ds
        = ((List.range n).map fun j => c ^ (2 * j) * ds.getD (2 * j) 0).sum
          + c * ((List.range n).map fun j => c ^ (2 * j) * ds.getD (2 * j + 1) 0).sum := by
  intro n
  induction n with
  | zero =>
    intro ds h
    have hnil : ds = [] := List.length_eq_zero.mp (by omega)
    subst hnil
    simp [evalBase]
  | succ n ih =>
    intro ds h
    cases ds with
    | nil => simp at h
    | cons d0 ds1 =>
      cases ds1 with
      | nil =>
        simp only [List.length_cons, List.length_nil] at h
        omega
      | cons d1 ds2 =>
        have hlen : ds2.length = 2 * n := by
          simp only [List.length_cons] at h
          omega
        simp only [evalBase, ih ds2 hlen]
        rw [List.range_succ_eq_map, List.map_cons, List.map_cons, List.map_map, List.map_map,
          List.sum_cons, List.sum_cons]
        have he : (List.range n).map
              ((fun j => c ^ (2 * j) * (d0 :: d1 :: ds2).getD (2 * j) 0) ∘ Nat.succ)
            = (List.range n).map fun j => c ^ 2 * (c ^ (2 * j) * ds2.getD (2 * j) 0) := by
          apply List.map_congr_left
          intro j _
          have h1 : 2 * Nat.succ j = 2 * j + 1 + 1 := by omega
          simp only [Function.comp_apply, h1, List.getD_cons_succ]
          rw [pow_succ, pow_succ]
          ring
        have ho : (List.range n).map
              ((fun j => c ^ (2 * j) * (d0 :: d1 :: ds2).getD (2 * j + 1) 0) ∘ Nat.succ)
            = (List.range n).map fun j => c ^ 2 * (c ^ (2 * j) * ds2.getD (2 * j + 1) 0) := by
          apply List.map_congr_left
          intro j _
          have h1 : 2 * Nat.succ j = 2 * j + 1 + 1 := by omega
          simp only [Function.comp_apply, h1, List.getD_cons_succ]
          rw [pow_succ, pow_succ]
          ring
        rw [he, ho, List.sum_map_mul_left, List.sum_map_mul_left]
        simp only [Nat.mul_zero, pow_zero, one_mul, List.getD_cons_zero, Nat.zero_add,
          List.getD_cons_succ]
        ring

theorem ScalarBaseMult_eq (v0 B : G) (x : ℕ) :
    ScalarBaseMult v0 B x = evalBase 16 (signedRadix16 x) • B := by
  unfold ScalarBaseMult
  simp only [ctSelect, basepointTable, NewIdentityPoint]
  set ds := signedRadix16 x with hds
  rw [foldl_add_eq, foldl_add_eq, zero_add]
  have hmape : ((List.range 32).map fun j => ds.getD (2 * j) 0 • ((16 : ℤ) ^ (2 * j) • B))
      = (List.range 32).map fun j => ((16 : ℤ) ^ (2 * j) * ds.getD (2 * j) 0) • B := by
    apply List.map_congr_left
    intro j _
    rw [smul_smul, mul_comm]
  have hmapo : ((List.range 32).map fun j => ds.getD (2 * j + 1) 0 • ((16 : ℤ) ^ (2 * j) • B))
      = (List.range 32).map fun j => ((16 : ℤ) ^ (2 * j) * ds.getD (2 * j + 1) 0) • B := by
    apply List.map_congr_left
    intro j _
    rw [smul_smul, mul_comm]
  rw [hmape, hmapo, sum_map_zsmul_right, sum_map_zsmul_right]
  simp only [smul_smul]
  rw [← add_smul]
  congr 1
  have hlen : ds.length = 2 * 32 := by
    rw [hds, signedRadix16_length]
  rw [evalBase_even_odd 16 32 ds hlen]
  ring

theorem VarTimeDoubleScalarBaseMult_ok (v0 B : G) (a : ℕ) (A : Point G) (b : ℕ)
    (hA : A.initialized = true) :
    VarTimeDoubleScalarBaseMult v0 B a A b
      = .ok (evalBase 2 (nonAdjacentForm 5 256 a) • A.val
          + evalBase 2 (nonAdjacentForm 8 256 b) • B) := by
  have hinit : checkInitialized [A] = true := by simp [checkInitialized, hA]
  unfold VarTimeDoubleScalarBaseMult
  rw [if_pos hinit]
  simp only [vtdsbmLoopStart]
  congr 1
  set aN := nonAdjacentForm 5 256 a with haN
  set bN := nonAdjacentForm 8 256 b with hbN
  have hstep : ∀ (t : G), ∀ i ∈ (List.range (255 + 1)).reverse,
      (if 0 < bN.getD i 0 then
        (if 0 < aN.getD i 0 then (2 : ℤ) • t + nafSelect A.val (aN.getD i 0)
         else if aN.getD i 0 < 0 then (2 : ℤ) • t - nafSelect A.val (-(aN.getD i 0))
         else (2 : ℤ) • t) + nafSelect B (bN.getD i 0)
       else if bN.getD i 0 < 0 then
        (if 0 < aN.getD i 0 then (2 : ℤ) • t + nafSelect A.val (aN.getD i 0)
         else if aN.getD i 0 < 0 then (2 : ℤ) • t - nafSelect A.val (-(aN.getD i 0))
         else (2 : ℤ) • t) - nafSelect B (-(bN.getD i 0))
       else
        (if 0 < aN.getD i 0 then (2 : ℤ) • t + nafSelect A.val (aN.getD i 0)
         else if aN.getD i 0 < 0 then (2 : ℤ) • t - nafSelect A.val (-(aN.getD i 0))
         else (2 : ℤ) • t))
        = (2 : ℤ) • t + (aN.getD i 0 • A.val + bN.getD i 0 • B) := by
    intro t i _
    rw [ite_sign_add, ite_sign_add, add_assoc]
  rw [List.foldl_ext _ _ _ hstep,
    foldl_horner 2 (fun i => aN.getD i 0 • A.val + bN.getD i 0 • B) (255 + 1),
    smul_zero, zero_add]
  have hmap1 : ((List.range (255 + 1)).map
        fun i => (2 : ℤ) ^ i • (aN.getD i 0 • A.val + bN.getD i 0 • B))
      = (List.range (255 + 1)).map
        fun i => ((2 : ℤ) ^ i * aN.getD i 0) • A.val + ((2 : ℤ) ^ i * bN.getD i 0) • B := by
    apply List.map_congr_left
    intro i _
    rw [smul_add, smul_smul, smul_smul]
  rw [hmap1, sum_map_add_eq, sum_map_zsmul_right, sum_map_zsmul_right]
  have hlena : aN.length = 256 := by rw [haN, nonAdjacentForm_length]
  have hlenb : bN.length = 256 := by rw [hbN, nonAdjacentForm_length]
  have hsa : ((List.range (255 + 1)).map fun i => (2 : ℤ) ^ i * aN.getD i 0).sum
      = evalBase 2 aN := by
    rw [show (255 + 1 : ℕ) = 256 from rfl, ← hlena]
    exact sum_eq_range_getD aN 2
  have hsb : ((List.range (255 + 1)).map fun i => (2 : ℤ) ^ i * bN.getD i 0).sum
      = evalBase 2 bN := by
    rw [show (255 + 1 : ℕ) = 256 from rfl, ← hlenb]
    exact sum_eq_range_getD bN 2
  rw [hsa, hsb]

theorem MultiScalarMult_nil (v0 : G) :
    MultiScalarMult v0 ([] : List ℕ) ([] : List (Point G))
      = .ok ((16 : ℤ) ^ 63 • v0) := by
  unfold MultiScalarMult
  simp only [List.length_nil]
  rw [if_pos trivial, if_pos (show checkInitialized ([] : List (Point G)) = true from rfl)]
  simp only [List.map_nil, List.zip_nil_right, List.foldl_nil]
  congr 1
  have hstep : ∀ (t : G), ∀ i ∈ (List.range 63).reverse,
      (2 : ℤ) • ((2 : ℤ) • ((2 : ℤ) • ((2 : ℤ) • t))) = (16 : ℤ) • t := by
    intro t i _
    rw [smul_smul, smul_smul, smul_smul]
    norm_num
  rw [List.foldl_ext _ _ _ hstep, foldl_smul_const]
  rw [List.length_reverse, List.length_range]

theorem VarTimeMultiScalarMult_nil (v0 : G) :
    VarTimeMultiScalarMult v0 ([] : List ℕ) ([] : List (Point G)) = .ok (0 : G) := by
  unfold VarTimeMultiScalarMult
  simp only [List.length_nil]
  rw [if_pos trivial, if_pos (show checkInitialized ([] : List (Point G)) = true from rfl)]
  simp only [List.map_nil, List.zip_nil_right, List.foldl_nil]
  congr 1
  rw [foldl_smul_const, smul_zero]

end ClosedForms

/-! ## Helper for trace equalities -/

theorem foldl_const_step {β γ δ : Type} (e : δ → δ) :
    ∀ (xs : List β) (ys : List γ), xs.length = ys.length → ∀ (t : δ),
      xs.foldl (fun t _ => e t) t = ys.foldl (fun t _ => e t) t := by
  intro xs
  induction xs with
  | nil =>
    intro ys h t
    have : ys = [] := List.length_eq_zero.mp (by simpa using h.symm)
    subst this
    rfl
  | cons x xs ih =>
    intro ys h t
    cases ys with
    | nil => simp at h
    | cons y ys =>
      simp only [List.foldl_cons]
      exact ih ys (by simpa using h) (e t)

/-! ## Claim theorems -/

/-- C1: the claim states that MultiScalarMult(scalars, points) returns the
iterative group sum of the terms, the empty pair yielding the identity.
The code contradicts this (and its own doc comment, which says the
function sets v to the sum): it never resets the receiver before
accumulating, so with the receiver holding a non-identity element (here
the integer 1 in the group of integers) and the empty pair of sequences,
it returns 16^63 times the receiver value, not the identity. -/
theorem C1_multiScalarMult_empty_not_identity :
    MultiScalarMult (1 : ℤ) [] [] = .ok ((16 : ℤ) ^ 63)
    ∧ ((16 : ℤ) ^ 63 : ℤ) ≠ 0 := by
  constructor
  · rw [MultiScalarMult_nil]
    rw [zsmul_eq_mul, Int.cast_id, mul_one]
  · norm_num

set_option maxRecDepth 40000 in
/-- C2: the claim states that VarTimeDoubleScalarBaseMult finds the highest
position at which either NAF is nonzero and starts the doubling loop
there.  In the code the search loop binds j but never writes i, so the
loop always starts at 255.  With a = 1 and b = 0 the search (nafSearch,
the value of j at the break) finds position 0, yet the loop start
(vtdsbmLoopStart, the value of i after the search) is 255, so the
leading 255 all-zero positions are doubled over rather than skipped. -/
theorem C2_loop_start_ignores_search :
    nafSearch (nonAdjacentForm 5 256 1) (nonAdjacentForm 8 256 0) 255 = 0
    ∧ vtdsbmLoopStart (nonAdjacentForm 5 256 1) (nonAdjacentForm 8 256 0) = 255
    ∧ (255 : ℕ) ≠ 0 := by
  refine ⟨by decide, rfl, by norm_num⟩

/-- C3: the claim states that VarTimeMultiScalarMult returns the same group
element as MultiScalarMult on identical inputs.  The code violates this
for every receiver that does not hold the identity, because
MultiScalarMult never resets the receiver while VarTimeMultiScalarMult
accumulates in a zeroed temporary: on the empty inputs with receiver 1
(in the group of integers) the variable-time path returns the identity 0
and the constant-time path returns 16^63. -/
theorem C3_varTime_disagrees_with_constant_time :
    VarTimeMultiScalarMult (1 : ℤ) [] [] = .ok (0 : ℤ)
    ∧ MultiScalarMult (1 : ℤ) [] [] = .ok ((16 : ℤ) ^ 63)
    ∧ ((16 : ℤ) ^ 63 : ℤ) ≠ 0 := by
  refine ⟨VarTimeMultiScalarMult_nil 1, ?_, by norm_num⟩
  rw [MultiScalarMult_nil]
  rw [zsmul_eq_mul, Int.cast_id, mul_one]

/-- C4: for every valid (reduced) scalar x, ScalarBaseMult(x) returns the
same group element as ScalarMult(x, Generator): the fixed-base
odd/even-grouped schedule and the generic most-significant-first
schedule agree on the generator. -/
theorem C4_scalarBaseMult_eq_scalarMult_generator {G : Type} [AddCommGroup G]
    (v0 v1 B : G) (x : ℕ) (hx : x < l) :
    Except.ok (ScalarBaseMult v0 B x) = ScalarMult v1 x (Generator B) := by
  rw [ScalarBaseMult_eq, ScalarMult_ok v1 x (Generator B) rfl]
  rfl

/-- Witness for C4 at the concrete scalar 5 over the group of integers
with generator 3. -/
theorem C4_witness :
    (5 < l)
    ∧ Except.ok (ScalarBaseMult (0 : ℤ) 3 5) = ScalarMult (0 : ℤ) 5 (Generator 3) :=
  ⟨by norm_num [l],
   C4_scalarBaseMult_eq_scalarMult_generator (0 : ℤ) 0 3 5 (by norm_num [l])⟩

/-- C5: for every valid scalar a, every valid initialized point A and every
valid scalar b, VarTimeDoubleScalarBaseMult(a, A, b) returns the group
sum of ScalarMult(a, A) and ScalarBaseMult(b). -/
theorem C5_varTimeDoubleScalarBaseMult_eq_sum {G : Type} [AddCommGroup G]
    (v0 v1 v2 B : G) (a b : ℕ) (A : Point G)
    (ha : a < l) (hb : b < l) (hA : A.initialized = true) :
    VarTimeDoubleScalarBaseMult v0 B a A b
      = (ScalarMult v1 a A).map (fun sA => sA + ScalarBaseMult v2 B b) := by
  rw [VarTimeDoubleScalarBaseMult_ok v0 B a A b hA, ScalarMult_ok v1 a A hA,
    ScalarBaseMult_eq]
  simp only [Except.map]
  congr 1
  have ha2 : 2 * a ≤ 2 ^ 256 := (Nat.mul_le_mul_left 2 ha.le).trans l_le_two_pow
  have hb2 : 2 * b ≤ 2 ^ 256 := (Nat.mul_le_mul_left 2 hb.le).trans l_le_two_pow
  rw [evalBase_nonAdjacentForm (by norm_num) ha2,
    evalBase_nonAdjacentForm (by norm_num) hb2,
    evalBase_signedRadix16 (ha.trans l_lt_16_pow),
    evalBase_signedRadix16 (hb.trans l_lt_16_pow)]

/-- Witness for C5 at a = 2, b = 3, A = 7, generator 5, over the group of
integers. -/
theorem C5_witness :
    (2 < l) ∧ (3 < l) ∧ (Point.initialized ⟨(7 : ℤ), true⟩ = true)
    ∧ VarTimeDoubleScalarBaseMult (0 : ℤ) 5 2 ⟨7, true⟩ 3
      = (ScalarMult (0 : ℤ) 2 ⟨7, true⟩).map (fun sA => sA + ScalarBaseMult (0 : ℤ) 5 3) :=
  ⟨by norm_num [l], by norm_num [l], rfl,
   C5_varTimeDoubleScalarBaseMult_eq_sum (0 : ℤ) 0 0 5 2 3 ⟨7, true⟩
     (by norm_num [l]) (by norm_num [l]) rfl⟩

/-- C6: every operation that receives a caller-supplied dynamic point
(ScalarMult, MultiScalarMult, VarTimeDoubleScalarBaseMult,
VarTimeMultiScalarMult) fails with UninitializedPoint when any supplied
point is the uninitialized sentinel, even when the other points are
valid, the check being performed up front before any table or digit
computation. -/
theorem C6_uninitialized_point_rejected {G : Type} [AddCommGroup G]
    (v0 B : G) (x a b : ℕ) (q A : Point G) (s : List ℕ) (p : List (Point G))
    (hq : q.initialized = false) (hA : A.initialized = false)
    (hlen : s.length = p.length) (hp : checkInitialized p = false) :
    ScalarMult v0 x q = .error .uninitializedPoint
    ∧ MultiScalarMult v0 s p = .error .uninitializedPoint
    ∧ VarTimeDoubleScalarBaseMult v0 B a A b = .error .uninitializedPoint
    ∧ VarTimeMultiScalarMult v0 s p = .error .uninitializedPoint := by
  refine ⟨?_, ?_, ?_, ?_⟩
  · unfold ScalarMult
    rw [if_neg (by simp [checkInitialized, hq])]
  · unfold MultiScalarMult
    rw [if_pos hlen, if_neg (by simp [hp])]
  · unfold VarTimeDoubleScalarBaseMult
    rw [if_neg (by simp [checkInitialized, hA])]
  · unfold VarTimeMultiScalarMult
    rw [if_pos hlen, if_neg (by simp [hp])]

/-- Witness for C6 over the group of integers: one uninitialized single
point, and a pair of points of which only the second is uninitialized. -/
theorem C6_witness :
    ScalarMult (0 : ℤ) 3 ⟨5, false⟩ = .error .uninitializedPoint
    ∧ MultiScalarMult (0 : ℤ) [1, 2] [⟨3, true⟩, ⟨4, false⟩] = .error .uninitializedPoint
    ∧ VarTimeDoubleScalarBaseMult (0 : ℤ) 1 1 ⟨7, false⟩ 1 = .error .uninitializedPoint
    ∧ VarTimeMultiScalarMult (0 : ℤ) [1, 2] [⟨3, true⟩, ⟨4, false⟩]
        = .error .uninitializedPoint :=
  C6_uninitialized_point_rejected (0 : ℤ) 1 3 1 1 ⟨5, false⟩ ⟨7, false⟩ [1, 2]
    [⟨3, true⟩, ⟨4, false⟩] rfl rfl rfl rfl

/-- C7: MultiScalarMult and VarTimeMultiScalarMult fail with
LengthMismatch exactly when the two sequences have different lengths,
and the length check precedes the uninitialized-point check: when the
lengths differ the result is the LengthMismatch error whatever the
points contain. -/
theorem C7_length_mismatch_iff {G : Type} [AddCommGroup G]
    (v0 : G) (s : List ℕ) (p : List (Point G)) :
    (MultiScalarMult v0 s p = .error .lengthMismatch ↔ s.length ≠ p.length)
    ∧ (VarTimeMultiScalarMult v0 s p = .error .lengthMismatch ↔ s.length ≠ p.length) := by
  constructor
  · constructor
    · intro h heq
      unfold MultiScalarMult at h
      rw [if_pos heq] at h
      by_cases hc : checkInitialized p = true
      · rw [if_pos hc] at h
        exact Except.noConfusion h
      · rw [if_neg hc] at h
        injection h with h2
        exact MultError.noConfusion h2
    · intro hne
      unfold MultiScalarMult
      rw [if_neg hne]
  · constructor
    · intro h heq
      unfold VarTimeMultiScalarMult at h
      rw [if_pos heq] at h
      by_cases hc : checkInitialized p = true
      · rw [if_pos hc] at h
        exact Except.noConfusion h
      · rw [if_neg hc] at h
        injection h with h2
        exact MultError.noConfusion h2
    · intro hne
      unfold VarTimeMultiScalarMult
      rw [if_neg hne]

/-- C8: in the constant-time operations ScalarBaseMult, ScalarMult and
MultiScalarMult, every digit step goes through the constant-time table
selector and the schedule of group operations performed (the trace) is
independent of the scalar values; for MultiScalarMult it depends only on
the lengths of the two slices. -/
theorem C8_constant_time_schedule {G : Type} (x y : ℕ)
    (s1 s2 : List ℕ) (p1 p2 : List (Point G))
    (hs : s1.length = s2.length) (hp : p1.length = p2.length) :
    ScalarBaseMultTrace x = ScalarBaseMultTrace y
    ∧ ScalarMultTrace x = ScalarMultTrace y
    ∧ MultiScalarMultTrace s1 p1 = MultiScalarMultTrace s2 p2 := by
  refine ⟨rfl, rfl, ?_⟩
  have hpl : (p1.zip (s1.map signedRadix16)).length
      = (p2.zip (s2.map signedRadix16)).length := by
    simp [hs, hp]
  have h1 : p1.foldl (fun tr _p => tr ++ [GroupOp.tableBuild]) ([] : List GroupOp)
      = p2.foldl (fun tr _p => tr ++ [GroupOp.tableBuild]) [] :=
    foldl_const_step (fun tr => tr ++ [GroupOp.tableBuild]) p1 p2 hp []
  have h2 : ∀ tr : List GroupOp,
      s1.foldl (fun tr _s => tr ++ [GroupOp.digitDecompose]) tr
        = s2.foldl (fun tr _s => tr ++ [GroupOp.digitDecompose]) tr := fun tr =>
    foldl_const_step (fun tr => tr ++ [GroupOp.digitDecompose]) s1 s2 hs tr
  have h3 : ∀ tr : List GroupOp,
      (p1.zip (s1.map signedRadix16)).foldl
          (fun tr2 td => tr2 ++ ctSelectTrace (td.2.getD 63 0) ++ [GroupOp.add]) tr
        = (p2.zip (s2.map signedRadix16)).foldl
          (fun tr2 td => tr2 ++ ctSelectTrace (td.2.getD 63 0) ++ [GroupOp.add]) tr := fun tr =>
    foldl_const_step (fun tr2 => tr2 ++ [GroupOp.select] ++ [GroupOp.add]) _ _ hpl tr
  dsimp only [MultiScalarMultTrace]
  rw [h1, h2, h3]
  exact List.foldl_ext _ _ _ (fun tr i _ =>
    foldl_const_step (fun tr2 => tr2 ++ [GroupOp.select] ++ [GroupOp.add]) _ _ hpl _)

/-- Witness for C8 at concrete scalars 1 and 2, and length-2 scalar and
point sequences with differing values, over the group of integers. -/
theorem C8_witness :
    ScalarBaseMultTrace 1 = ScalarBaseMultTrace 2
    ∧ ScalarMultTrace 1 = ScalarMultTrace 2
    ∧ MultiScalarMultTrace [1, 2] [(⟨5, true⟩ : Point ℤ), ⟨6, false⟩]
        = MultiScalarMultTrace [3, 4] [(⟨7, true⟩ : Point ℤ), ⟨8, true⟩] :=
  C8_constant_time_schedule 1 2 [1, 2] [3, 4]
    [(⟨5, true⟩ : Point ℤ), ⟨6, false⟩] [⟨7, true⟩, ⟨8, true⟩] rfl rfl

/-- C9: ScalarBaseMult, ScalarMult, VarTimeDoubleScalarBaseMult and
VarTimeMultiScalarMult each reset their accumulator (the receiver is set
to the identity, or a zeroed projective temporary is used), so the
result does not depend on the prior receiver value. -/
theorem C9_receiver_independent {G : Type} [AddCommGroup G]
    (v0 v1 B : G) (x a b : ℕ) (q A : Point G) (s : List ℕ) (p : List (Point G)) :
    ScalarBaseMult v0 B x = ScalarBaseMult v1 B x
    ∧ ScalarMult v0 x q = ScalarMult v1 x q
    ∧ VarTimeDoubleScalarBaseMult v0 B a A b = VarTimeDoubleScalarBaseMult v1 B a A b
    ∧ VarTimeMultiScalarMult v0 s p = VarTimeMultiScalarMult v1 s p :=
  ⟨rfl, rfl, rfl, rfl⟩

end Edwards25519
